import Mathlib

/-!
Verification of the colour-scraping / colour-reading notebooks.

The scraper (`create-sample-json-gz-files.ipynb`) extracts colour records
from page text with two regular expressions, tags each record with a
generated identifier and persists the records as compressed JSON; the
reader (`python-process-s3-files.ipynb`) lists object keys under a bucket
key start, downloads, decompresses and parses each object, and filters the
records with two boolean predicates.

Texts are embedded as `List Char`.  The two regular-expression searches
(`re.search` with `re.IGNORECASE`) are embedded as a left-to-right scan
(`reSearch`) trying a deterministic per-position matcher; the matchers are
derived from the patterns `#[0-9a-fA-F]{6}` and
`rgb\s*(\d{1,3}),\s*(\d{1,3}),\s*(\d{1,3})`, where greedy matching with
backtracking of `(\d{1,3})` before a literal comma is equivalent to
requiring the full digit run (of length 1..3) to be followed by the comma,
since no shorter prefix of the run can be followed by a comma.  Character
classes are the ASCII parts of the Python classes, which cover every
character the repository's data and tests exercise.

External services (HTTP, gzip, the JSON text codec, S3) are not code of
this repository; where a claim crosses them they appear as explicitly
quantified functions constrained only by their documented contracts.
-/

namespace ColourBlog

/-- The character class `[0-9]` (`\d` of the patterns, ASCII part). -/
def isAsciiDigit (c : Char) : Bool :=
  (48 ≤ c.toNat) && (c.toNat ≤ 57)

/-- The character class `[0-9a-fA-F]` of the hex pattern. -/
def isHexDigitChar (c : Char) : Bool :=
  ((48 ≤ c.toNat) && (c.toNat ≤ 57)) ||
    ((97 ≤ c.toNat) && (c.toNat ≤ 102)) ||
    ((65 ≤ c.toNat) && (c.toNat ≤ 70))

/-- The character class `\s` (ASCII part): space, tab, newline, vertical
tab, form feed, carriage return. -/
def isPySpace (c : Char) : Bool :=
  (c.toNat == 32) || (c.toNat == 9) || (c.toNat == 10) ||
    (c.toNat == 11) || (c.toNat == 12) || (c.toNat == 13)

theorem not_pySpace_of_asciiDigit {c : Char} (h : isAsciiDigit c = true) :
    isPySpace c = false := by
  have hn : 48 ≤ c.toNat ∧ c.toNat ≤ 57 := by
    simpa [isAsciiDigit, Bool.and_eq_true, decide_eq_true_iff] using h
  simp only [isPySpace, Bool.or_eq_false_iff, beq_eq_false_iff_ne, ne_eq]
  omega

theorem asciiDigit_toNat_sub_le {c : Char} (h : isAsciiDigit c = true) :
    c.toNat - 48 ≤ 9 := by
  have hn : 48 ≤ c.toNat ∧ c.toNat ≤ 57 := by
    simpa [isAsciiDigit, Bool.and_eq_true, decide_eq_true_iff] using h
  omega

/-- `re.search`: try the matcher at every position of the text, left to
right, and return the first result. -/
def reSearch {α : Type} (step : List Char → Option α) : List Char → Option α
  | [] => step []
  | c :: cs =>
    match step (c :: cs) with
    | some v => some v
    | none => reSearch step cs

theorem reSearch_eq_none_iff {α : Type} (step : List Char → Option α) :
    ∀ t : List Char, (reSearch step t = none ↔ ∀ i : Nat, step (t.drop i) = none) := by
  intro t
  induction t with
  | nil =>
    simp only [reSearch, List.drop_nil]
    exact ⟨fun h _ => h, fun h => h 0⟩
  | cons c cs ih =>
    simp only [reSearch]
    cases h : step (c :: cs) with
    | some v =>
      simp only [reduceCtorEq, false_iff, not_forall]
      exact ⟨0, by simp [h]⟩
    | none =>
      rw [ih]
      constructor
      · intro hall i
        cases i with
        | zero => simpa using h
        | succ j => simpa [List.drop_succ_cons] using hall j
      · intro hall i
        simpa [List.drop_succ_cons] using hall (i + 1)

theorem reSearch_eq_some_iff {α : Type} (step : List Char → Option α) :
    ∀ (t : List Char) (v : α),
      (reSearch step t = some v ↔
        ∃ i : Nat, step (t.drop i) = some v ∧ ∀ j : Nat, j < i → step (t.drop j) = none) := by
  intro t
  induction t with
  | nil =>
    intro v
    simp only [reSearch, List.drop_nil]
    constructor
    · intro h
      exact ⟨0, h, fun j hj => absurd hj (Nat.not_lt_zero j)⟩
    · rintro ⟨i, hi, -⟩
      exact hi
  | cons c cs ih =>
    intro v
    simp only [reSearch]
    cases h : step (c :: cs) with
    | some w =>
      constructor
      · intro hv
        exact ⟨0, by simpa [h] using hv, fun j hj => absurd hj (Nat.not_lt_zero j)⟩
      · rintro ⟨i, hi, hlt⟩
        cases i with
        | zero => simpa [h] using hi
        | succ k =>
          have h0 := hlt 0 (Nat.succ_pos k)
          simp only [List.drop_zero] at h0
          rw [h0] at h
          exact absurd h (by simp)
    | none =>
      rw [ih v]
      constructor
      · rintro ⟨i, hi, hlt⟩
        refine ⟨i + 1, by simpa [List.drop_succ_cons] using hi, ?_⟩
        intro j hj
        cases j with
        | zero => simpa using h
        | succ k =>
          have : k < i := by omega
          simpa [List.drop_succ_cons] using hlt k this
      · rintro ⟨i, hi, hlt⟩
        cases i with
        | zero =>
          simp only [List.drop_zero] at hi
          rw [hi] at h
          exact absurd h (by simp)
        | succ k =>
          refine ⟨k, by simpa [List.drop_succ_cons] using hi, ?_⟩
          intro j hj
          have := hlt (j + 1) (by omega)
          simpa [List.drop_succ_cons] using this

/-- The per-position matcher of `extract_hex_colour`: `#` followed by six
characters of `[0-9a-fA-F]`; the matched seven characters are the result
(`match.group(0)`). -/
def extract_hex_colour_step (cs : List Char) : Option (List Char) :=
  match cs with
  | [] => none
  | c :: rest =>
    if c = '#' ∧ (rest.take 6).length = 6 ∧ (rest.take 6).all isHexDigitChar = true then
      some (c :: rest.take 6)
    else none

/-- `extract_hex_colour`: `re.search(r"#[0-9a-fA-F]{6}", text, re.IGNORECASE)`,
returning the matched text, or `none` when there is no match. -/
def extract_hex_colour (text : List Char) : Option (List Char) :=
  reSearch extract_hex_colour_step text

/-- The spec's description of a hex match sitting at the head of a text:
a `#` followed by exactly six hexadecimal digits. -/
def hex_match_here (cs : List Char) : Prop :=
  ∃ ds rest : List Char,
    cs = '#' :: (ds ++ rest) ∧ ds.length = 6 ∧ ∀ c ∈ ds, isHexDigitChar c = true

/-- A hex match at position `i` of the text. -/
def hex_match_at (t : List Char) (i : Nat) : Prop :=
  hex_match_here (t.drop i)

theorem extract_hex_colour_step_eq_some_iff (cs m : List Char) :
    extract_hex_colour_step cs = some m ↔
      ∃ ds rest : List Char,
        cs = '#' :: (ds ++ rest) ∧ ds.length = 6 ∧
          (∀ c ∈ ds, isHexDigitChar c = true) ∧ m = '#' :: ds := by
  cases cs with
  | nil =>
    simp only [extract_hex_colour_step]
    constructor
    · intro h
      exact absurd h (by simp)
    · rintro ⟨ds, rest, h, -⟩
      exact absurd h (by simp)
  | cons c rest =>
    simp only [extract_hex_colour_step]
    split_ifs with hcond
    · obtain ⟨hc, hlen, hall⟩ := hcond
      subst hc
      constructor
      · intro h
        refine ⟨rest.take 6, rest.drop 6, by simp [List.take_append_drop], hlen, ?_, ?_⟩
        · intro c hc
          exact (List.all_eq_true.mp hall) c hc
        · simpa using h.symm
      · rintro ⟨ds, rest2, heq, hdlen, -, hm⟩
        have hrest : rest = ds ++ rest2 := by
          simpa using heq
        have htake : rest.take 6 = ds := by
          rw [hrest, ← hdlen, List.take_left]
        rw [hm, htake]
    · constructor
      · intro h
        exact absurd h (by simp)
      · rintro ⟨ds, rest2, heq, hdlen, hall, -⟩
        exfalso
        have hc : c = '#' := by
          have := congrArg (fun l => l.head?) heq
          simpa using this
        have hrest : rest = ds ++ rest2 := by
          simpa [hc] using heq
        have htake : rest.take 6 = ds := by
          rw [hrest, ← hdlen, List.take_left]
        exact hcond ⟨hc, by rw [htake]; exact hdlen,
          by rw [htake]; exact List.all_eq_true.mpr hall⟩

theorem extract_hex_colour_step_eq_none_iff (cs : List Char) :
    extract_hex_colour_step cs = none ↔ ¬ hex_match_here cs := by
  constructor
  · rintro h ⟨ds, rest, heq, hlen, hall⟩
    have : extract_hex_colour_step cs = some ('#' :: ds) :=
      (extract_hex_colour_step_eq_some_iff cs ('#' :: ds)).mpr
        ⟨ds, rest, heq, hlen, hall, rfl⟩
    rw [h] at this
    exact absurd this (by simp)
  · intro h
    cases hv : extract_hex_colour_step cs with
    | none => rfl
    | some m =>
      obtain ⟨ds, rest, heq, hlen, hall, -⟩ :=
        (extract_hex_colour_step_eq_some_iff cs m).mp hv
      exact absurd ⟨ds, rest, heq, hlen, hall⟩ h

theorem takeWhile_append_of_all {p : Char → Bool} :
    ∀ (ds rest : List Char), (∀ c ∈ ds, p c = true) →
      (ds ++ rest).takeWhile p = ds ++ rest.takeWhile p := by
  intro ds
  induction ds with
  | nil => intro rest _; simp
  | cons c ds ih =>
    intro rest h
    have hc : p c = true := h c (by simp)
    simp only [List.cons_append, List.takeWhile_cons, hc, if_true]
    rw [ih rest (fun x hx => h x (by simp [hx]))]

theorem dropWhile_append_of_all {p : Char → Bool} :
    ∀ (ds rest : List Char), (∀ c ∈ ds, p c = true) →
      (ds ++ rest).dropWhile p = rest.dropWhile p := by
  intro ds
  induction ds with
  | nil => intro rest _; simp
  | cons c ds ih =>
    intro rest h
    have hc : p c = true := h c (by simp)
    simp only [List.cons_append, List.dropWhile_cons, hc, if_true]
    exact ih rest (fun x hx => h x (by simp [hx]))

theorem dropWhile_cons_of_neg {p : Char → Bool} {c : Char} (l : List Char)
    (hc : p c = false) : (c :: l).dropWhile p = c :: l := by
  simp [List.dropWhile_cons, hc]

theorem mem_takeWhile_sat {p : Char → Bool} :
    ∀ (l : List Char) (c : Char), c ∈ l.takeWhile p → p c = true := by
  intro l
  induction l with
  | nil => intro c hc; simp at hc
  | cons a l ih =>
    intro c hc
    by_cases ha : p a = true
    · rw [List.takeWhile_cons, if_pos ha] at hc
      rcases List.mem_cons.mp hc with h | h
      · rw [h]; exact ha
      · exact ih c h
    · rw [List.takeWhile_cons, if_neg ha] at hc
      simp at hc

/-- One `(\d{1,3}),` part of the RGB pattern sitting at the head of the
text: greedy matching with backtracking against a following literal comma
succeeds exactly when the whole leading digit run has length 1..3 and is
followed by `,`; the run is the captured group. -/
def group_then_comma (cs : List Char) : Option (List Char × List Char) :=
  match cs.dropWhile isAsciiDigit with
  | c :: rest =>
    if c = ',' ∧ 1 ≤ (cs.takeWhile isAsciiDigit).length ∧
        (cs.takeWhile isAsciiDigit).length ≤ 3 then
      some (cs.takeWhile isAsciiDigit, rest)
    else none
  | [] => none

/-- The final `(\d{1,3})` of the RGB pattern, with nothing after it:
greedy matching takes the first `min 3 n` characters of the leading digit
run of length `n`, and needs `1 ≤ n`. -/
def final_digit_group (cs : List Char) : Option (List Char) :=
  if 1 ≤ ((cs.takeWhile isAsciiDigit).take 3).length then
    some ((cs.takeWhile isAsciiDigit).take 3)
  else none

/-- `int()` on a group of ASCII digit characters. -/
def digits_to_nat (ds : List Char) : Nat :=
  ds.foldl (fun a c => 10 * a + (c.toNat - 48)) 0

theorem group_then_comma_eq_some_iff (cs ds rest : List Char) :
    group_then_comma cs = some (ds, rest) ↔
      (∀ c ∈ ds, isAsciiDigit c = true) ∧ 1 ≤ ds.length ∧ ds.length ≤ 3 ∧
        cs = ds ++ ',' :: rest := by
  constructor
  · intro h
    unfold group_then_comma at h
    cases hd : cs.dropWhile isAsciiDigit with
    | nil => rw [hd] at h; exact absurd h (by simp)
    | cons c tail =>
      rw [hd] at h
      dsimp only at h
      split_ifs at h with hcond
      · obtain ⟨hc, h1, h3⟩ := hcond
        have hds : cs.takeWhile isAsciiDigit = ds ∧ tail = rest := by
          have := h
          simp only [Option.some.injEq, Prod.mk.injEq] at this
          exact this
        obtain ⟨hds, htail⟩ := hds
        refine ⟨?_, hds ▸ h1, hds ▸ h3, ?_⟩
        · intro x hx
          exact mem_takeWhile_sat cs x (hds ▸ hx)
        · have hsplit : cs.takeWhile isAsciiDigit ++ cs.dropWhile isAsciiDigit = cs :=
            List.takeWhile_append_dropWhile isAsciiDigit cs
          rw [← hsplit, hds, hd, hc, htail]
  · rintro ⟨hall, h1, h3, heq⟩
    have hcomma : isAsciiDigit ',' = false := by decide
    have htake : cs.takeWhile isAsciiDigit = ds := by
      rw [heq, takeWhile_append_of_all ds (',' :: rest) hall,
        List.takeWhile_cons, hcomma]
      simp
    have hdrop : cs.dropWhile isAsciiDigit = ',' :: rest := by
      rw [heq, dropWhile_append_of_all ds (',' :: rest) hall]
      exact dropWhile_cons_of_neg rest hcomma
    unfold group_then_comma
    rw [hdrop, htake]
    simp [h1, h3]

theorem final_digit_group_eq_some_iff (cs ds : List Char) :
    final_digit_group cs = some ds ↔
      ds = (cs.takeWhile isAsciiDigit).take 3 ∧ 1 ≤ ds.length := by
  unfold final_digit_group
  split_ifs with hcond
  · constructor
    · intro h
      have hds : (cs.takeWhile isAsciiDigit).take 3 = ds := by simpa using h
      exact ⟨hds.symm, hds ▸ hcond⟩
    · rintro ⟨hds, -⟩
      rw [hds]
  · constructor
    · intro h; exact absurd h (by simp)
    · rintro ⟨hds, h1⟩
      exact absurd (hds ▸ h1) hcond

theorem final_digit_group_isSome_of_decomp (d : List Char) (rest : List Char)
    (hall : ∀ c ∈ d, isAsciiDigit c = true) (h1 : 1 ≤ d.length) :
    (final_digit_group (d ++ rest)).isSome = true := by
  unfold final_digit_group
  rw [takeWhile_append_of_all d rest hall]
  have hlen : 1 ≤ ((d ++ rest.takeWhile isAsciiDigit).take 3).length := by
    simp only [List.length_take, List.length_append]
    omega
  rw [if_pos hlen]
  simp

/-- The per-position matcher of `extract_rgb_colour`: the pattern
`rgb\s*(\d{1,3}),\s*(\d{1,3}),\s*(\d{1,3})` under `re.IGNORECASE`,
with the three captured groups converted by `int()`. -/
def extract_rgb_colour_step (cs : List Char) : Option (Nat × Nat × Nat) :=
  match cs with
  | c1 :: c2 :: c3 :: rest =>
    if (c1 = 'r' ∨ c1 = 'R') ∧ (c2 = 'g' ∨ c2 = 'G') ∧ (c3 = 'b' ∨ c3 = 'B') then
      match group_then_comma (rest.dropWhile isPySpace) with
      | some (d1, r1) =>
        match group_then_comma (r1.dropWhile isPySpace) with
        | some (d2, r2) =>
          match final_digit_group (r2.dropWhile isPySpace) with
          | some d3 => some (digits_to_nat d1, digits_to_nat d2, digits_to_nat d3)
          | none => none
        | none => none
      | none => none
    else none
  | _ => none

/-- `extract_rgb_colour`: `re.search` of the RGB pattern over the text,
returning the three parsed integers, or `none` when there is no match. -/
def extract_rgb_colour (text : List Char) : Option (Nat × Nat × Nat) :=
  reSearch extract_rgb_colour_step text

/-- An occurrence of the RGB pattern sitting at the head of a text:
`rgb` (any letter case), optional whitespace, then three groups of one to
three digits, the first two each followed by a comma and optional
whitespace. -/
def rgb_match_here (cs : List Char) : Prop :=
  ∃ (c1 c2 c3 : Char) (s1 d1 s2 d2 s3 d3 rest : List Char),
    cs = c1 :: c2 :: c3 :: (s1 ++ d1 ++ ',' :: (s2 ++ d2 ++ ',' :: (s3 ++ d3 ++ rest))) ∧
    (c1 = 'r' ∨ c1 = 'R') ∧ (c2 = 'g' ∨ c2 = 'G') ∧ (c3 = 'b' ∨ c3 = 'B') ∧
    (∀ c ∈ s1, isPySpace c = true) ∧ (∀ c ∈ s2, isPySpace c = true) ∧
    (∀ c ∈ s3, isPySpace c = true) ∧
    (∀ c ∈ d1, isAsciiDigit c = true) ∧ (∀ c ∈ d2, isAsciiDigit c = true) ∧
    (∀ c ∈ d3, isAsciiDigit c = true) ∧
    1 ≤ d1.length ∧ d1.length ≤ 3 ∧ 1 ≤ d2.length ∧ d2.length ≤ 3 ∧
    1 ≤ d3.length ∧ d3.length ≤ 3

/-- An occurrence of the RGB pattern at position `i` of the text. -/
def rgb_match_at (t : List Char) (i : Nat) : Prop :=
  rgb_match_here (t.drop i)

theorem digits_foldl_lt :
    ∀ ds : List Char, (∀ c ∈ ds, isAsciiDigit c = true) →
      ∀ a : Nat, ds.foldl (fun x c => 10 * x + (c.toNat - 48)) a < (a + 1) * 10 ^ ds.length := by
  intro ds
  induction ds with
  | nil => intro _ a; simp
  | cons c ds ih =>
    intro h a
    have hd : c.toNat - 48 ≤ 9 := asciiDigit_toNat_sub_le (h c (by simp))
    have hrec := ih (fun x hx => h x (by simp [hx])) (10 * a + (c.toNat - 48))
    simp only [List.foldl_cons, List.length_cons]
    calc ds.foldl (fun x c => 10 * x + (c.toNat - 48)) (10 * a + (c.toNat - 48))
        < (10 * a + (c.toNat - 48) + 1) * 10 ^ ds.length := hrec
      _ ≤ ((a + 1) * 10) * 10 ^ ds.length := Nat.mul_le_mul_right _ (by omega)
      _ = (a + 1) * 10 ^ (ds.length + 1) := by rw [pow_succ]; ring

theorem digits_to_nat_le_999 (ds : List Char)
    (hall : ∀ c ∈ ds, isAsciiDigit c = true) (hlen : ds.length ≤ 3) :
    digits_to_nat ds ≤ 999 := by
  have h := digits_foldl_lt ds hall 0
  have hp : (10 : Nat) ^ ds.length ≤ 1000 := by
    calc (10 : Nat) ^ ds.length ≤ 10 ^ 3 := Nat.pow_le_pow_right (by omega) hlen
      _ = 1000 := by norm_num
  unfold digits_to_nat
  omega

theorem dropWhile_spaces_then_digits (s d rest : List Char)
    (hs : ∀ c ∈ s, isPySpace c = true) (hd : ∀ c ∈ d, isAsciiDigit c = true)
    (hlen : 1 ≤ d.length) :
    (s ++ d ++ rest).dropWhile isPySpace = d ++ rest := by
  rw [List.append_assoc, dropWhile_append_of_all s _ hs]
  cases d with
  | nil => simp at hlen
  | cons a l =>
    have ha : isPySpace a = false := not_pySpace_of_asciiDigit (hd a (by simp))
    rw [List.cons_append, dropWhile_cons_of_neg (l ++ rest) ha]

theorem group_then_comma_of_decomp (d tail : List Char)
    (hd : ∀ c ∈ d, isAsciiDigit c = true) (h1 : 1 ≤ d.length) (h3 : d.length ≤ 3) :
    group_then_comma (d ++ ',' :: tail) = some (d, tail) :=
  (group_then_comma_eq_some_iff _ d tail).mpr ⟨hd, h1, h3, rfl⟩

theorem extract_rgb_colour_step_some (cs : List Char) (v : Nat × Nat × Nat)
    (h : extract_rgb_colour_step cs = some v) :
    rgb_match_here cs ∧ v.1 ≤ 999 ∧ v.2.1 ≤ 999 ∧ v.2.2 ≤ 999 := by
  cases cs with
  | nil => simp [extract_rgb_colour_step] at h
  | cons c1 t1 =>
  cases t1 with
  | nil => simp [extract_rgb_colour_step] at h
  | cons c2 t2 =>
  cases t2 with
  | nil => simp [extract_rgb_colour_step] at h
  | cons c3 rest =>
  simp only [extract_rgb_colour_step] at h
  split_ifs at h with hlet
  cases hg1 : group_then_comma (rest.dropWhile isPySpace) with
  | none => rw [hg1] at h; simp at h
  | some p1 =>
  obtain ⟨d1, r1⟩ := p1
  rw [hg1] at h
  dsimp only at h
  cases hg2 : group_then_comma (r1.dropWhile isPySpace) with
  | none => rw [hg2] at h; simp at h
  | some p2 =>
  obtain ⟨d2, r2⟩ := p2
  rw [hg2] at h
  dsimp only at h
  cases hg3 : final_digit_group (r2.dropWhile isPySpace) with
  | none => rw [hg3] at h; simp at h
  | some d3 =>
  rw [hg3] at h
  dsimp only at h
  have hv : v = (digits_to_nat d1, digits_to_nat d2, digits_to_nat d3) := by
    simpa using h.symm
  obtain ⟨hd1, l11, l13, hsplit1⟩ := (group_then_comma_eq_some_iff _ d1 r1).mp hg1
  obtain ⟨hd2, l21, l23, hsplit2⟩ := (group_then_comma_eq_some_iff _ d2 r2).mp hg2
  obtain ⟨hd3eq, l31⟩ := (final_digit_group_eq_some_iff _ d3).mp hg3
  have hs1 : ∀ c ∈ rest.takeWhile isPySpace, isPySpace c = true :=
    fun c hc => mem_takeWhile_sat rest c hc
  have hs2 : ∀ c ∈ r1.takeWhile isPySpace, isPySpace c = true :=
    fun c hc => mem_takeWhile_sat r1 c hc
  have hs3 : ∀ c ∈ r2.takeWhile isPySpace, isPySpace c = true :=
    fun c hc => mem_takeWhile_sat r2 c hc
  have hrest : rest = rest.takeWhile isPySpace ++ (d1 ++ ',' :: r1) := by
    rw [← hsplit1, List.takeWhile_append_dropWhile]
  have hr1 : r1 = r1.takeWhile isPySpace ++ (d2 ++ ',' :: r2) := by
    rw [← hsplit2, List.takeWhile_append_dropWhile]
  have hw : r2.dropWhile isPySpace =
      d3 ++ (((r2.dropWhile isPySpace).takeWhile isAsciiDigit).drop 3 ++
        (r2.dropWhile isPySpace).dropWhile isAsciiDigit) := by
    conv_lhs => rw [← List.takeWhile_append_dropWhile isAsciiDigit (r2.dropWhile isPySpace)]
    rw [← List.append_assoc, hd3eq, List.take_append_drop]
  have hr2 : r2 = r2.takeWhile isPySpace ++
      (d3 ++ (((r2.dropWhile isPySpace).takeWhile isAsciiDigit).drop 3 ++
        (r2.dropWhile isPySpace).dropWhile isAsciiDigit)) := by
    conv_lhs => rw [← List.takeWhile_append_dropWhile isPySpace r2]
    rw [← hw]
  have hd3 : ∀ c ∈ d3, isAsciiDigit c = true := by
    intro c hc
    rw [hd3eq] at hc
    exact mem_takeWhile_sat _ c (List.take_subset 3 _ hc)
  have l33 : d3.length ≤ 3 := by
    rw [hd3eq, List.length_take]
    omega
  constructor
  · refine ⟨c1, c2, c3, rest.takeWhile isPySpace, d1, r1.takeWhile isPySpace, d2,
      r2.takeWhile isPySpace, d3,
      ((r2.dropWhile isPySpace).takeWhile isAsciiDigit).drop 3 ++
        (r2.dropWhile isPySpace).dropWhile isAsciiDigit,
      ?_, hlet.1, hlet.2.1, hlet.2.2, hs1, hs2, hs3, hd1, hd2, hd3,
      l11, l13, l21, l23, l31, l33⟩
    conv_lhs => rw [hrest, hr1, hr2]
    simp [List.append_assoc]
  · rw [hv]
    exact ⟨digits_to_nat_le_999 d1 hd1 l13, digits_to_nat_le_999 d2 hd2 l23,
      digits_to_nat_le_999 d3 hd3 l33⟩

theorem rgb_match_here_isSome (cs : List Char) (h : rgb_match_here cs) :
    (extract_rgb_colour_step cs).isSome = true := by
  obtain ⟨c1, c2, c3, s1, d1, s2, d2, s3, d3, rest, heq, h1, h2, h3,
    hs1, hs2, hs3, hd1, hd2, hd3, l11, l13, l21, l23, l31, l33⟩ := h
  subst heq
  simp only [extract_rgb_colour_step]
  rw [if_pos ⟨h1, h2, h3⟩]
  rw [dropWhile_spaces_then_digits s1 d1 _ hs1 hd1 l11,
    group_then_comma_of_decomp d1 _ hd1 l11 l13]
  dsimp only
  rw [dropWhile_spaces_then_digits s2 d2 _ hs2 hd2 l21,
    group_then_comma_of_decomp d2 _ hd2 l21 l23]
  dsimp only
  rw [dropWhile_spaces_then_digits s3 d3 rest hs3 hd3 l31]
  have hfin := final_digit_group_isSome_of_decomp d3 rest hd3 l31
  obtain ⟨d, hd⟩ := Option.isSome_iff_exists.mp hfin
  rw [hd]
  simp

theorem extract_rgb_colour_step_isSome_iff (cs : List Char) :
    (extract_rgb_colour_step cs).isSome = true ↔ rgb_match_here cs := by
  constructor
  · intro h
    obtain ⟨v, hv⟩ := Option.isSome_iff_exists.mp h
    exact (extract_rgb_colour_step_some cs v hv).1
  · exact rgb_match_here_isSome cs

theorem extract_rgb_colour_step_eq_none_iff (cs : List Char) :
    extract_rgb_colour_step cs = none ↔ ¬ rgb_match_here cs := by
  rw [← extract_rgb_colour_step_isSome_iff]
  cases extract_rgb_colour_step cs <;> simp

/-- The RGB pattern as the spec words it, for comparison with the code:
`rgb` followed by a single space (rather than the code's `\s*`), then the
three digit groups. -/
def extract_rgb_claimed_step (cs : List Char) : Option (Nat × Nat × Nat) :=
  match cs with
  | c1 :: c2 :: c3 :: c4 :: rest =>
    if (c1 = 'r' ∨ c1 = 'R') ∧ (c2 = 'g' ∨ c2 = 'G') ∧ (c3 = 'b' ∨ c3 = 'B') ∧ c4 = ' ' then
      match group_then_comma rest with
      | some (d1, r1) =>
        match group_then_comma (r1.dropWhile isPySpace) with
        | some (d2, r2) =>
          match final_digit_group (r2.dropWhile isPySpace) with
          | some d3 => some (digits_to_nat d1, digits_to_nat d2, digits_to_nat d3)
          | none => none
        | none => none
      | none => none
    else none
  | _ => none

/-- `re.search` of the spec's wording of the RGB pattern. -/
def extract_rgb_colour_as_claimed (text : List Char) : Option (Nat × Nat × Nat) :=
  reSearch extract_rgb_claimed_step text

/-- An occurrence, at the head of a text, of the RGB pattern as the spec
words it: `rgb`, one single space, then the digit groups. -/
def rgb_claimed_match_here (cs : List Char) : Prop :=
  ∃ (c1 c2 c3 : Char) (d1 s2 d2 s3 d3 rest : List Char),
    cs = c1 :: c2 :: c3 :: ' ' :: (d1 ++ ',' :: (s2 ++ d2 ++ ',' :: (s3 ++ d3 ++ rest))) ∧
    (c1 = 'r' ∨ c1 = 'R') ∧ (c2 = 'g' ∨ c2 = 'G') ∧ (c3 = 'b' ∨ c3 = 'B') ∧
    (∀ c ∈ s2, isPySpace c = true) ∧ (∀ c ∈ s3, isPySpace c = true) ∧
    (∀ c ∈ d1, isAsciiDigit c = true) ∧ (∀ c ∈ d2, isAsciiDigit c = true) ∧
    (∀ c ∈ d3, isAsciiDigit c = true) ∧
    1 ≤ d1.length ∧ d1.length ≤ 3 ∧ 1 ≤ d2.length ∧ d2.length ≤ 3 ∧
    1 ≤ d3.length ∧ d3.length ≤ 3

/-- An occurrence of the spec-worded RGB pattern at position `i`. -/
def rgb_claimed_match_at (t : List Char) (i : Nat) : Prop :=
  rgb_claimed_match_here (t.drop i)

theorem rgb_claimed_match_here_isSome (cs : List Char) (h : rgb_claimed_match_here cs) :
    (extract_rgb_claimed_step cs).isSome = true := by
  obtain ⟨c1, c2, c3, d1, s2, d2, s3, d3, rest, heq, h1, h2, h3,
    hs2, hs3, hd1, hd2, hd3, l11, l13, l21, l23, l31, l33⟩ := h
  subst heq
  simp only [extract_rgb_claimed_step]
  rw [if_pos ⟨h1, h2, h3, trivial⟩]
  rw [group_then_comma_of_decomp d1 _ hd1 l11 l13]
  dsimp only
  rw [dropWhile_spaces_then_digits s2 d2 _ hs2 hd2 l21,
    group_then_comma_of_decomp d2 _ hd2 l21 l23]
  dsimp only
  rw [dropWhile_spaces_then_digits s3 d3 rest hs3 hd3 l31]
  have hfin := final_digit_group_isSome_of_decomp d3 rest hd3 l31
  obtain ⟨d, hd⟩ := Option.isSome_iff_exists.mp hfin
  rw [hd]
  simp

/-- The scraper's `Colour` dataclass: a colour name and details. -/
structure Colour where
  name : String
  base : String
  hex : String
  rgb : Nat × Nat × Nat
deriving DecidableEq

/-- The `ColourId` dataclass: a `Colour` plus a generated identifier. -/
structure ColourId where
  id : String
  name : String
  base : String
  hex : String
  rgb : Nat × Nat × Nat
deriving DecidableEq

/-- `is_colour_reddish`: `rgb[0] > rgb[1] and rgb[0] > rgb[2]`. -/
def is_colour_reddish (colour : ColourId) : Bool :=
  decide (colour.rgb.1 > colour.rgb.2.1) && decide (colour.rgb.1 > colour.rgb.2.2)

/-- `is_colour_muted`: `rgb[0] < 128 and rgb[1] < 128 and rgb[2] < 128`. -/
def is_colour_muted (colour : ColourId) : Bool :=
  decide (colour.rgb.1 < 128) && decide (colour.rgb.2.1 < 128) &&
    decide (colour.rgb.2.2 < 128)

/-- JSON values as this data uses them: strings, non-negative integers
(every number here comes from digit groups), arrays and objects. -/
inductive Json : Type where
  | str : String → Json
  | num : Nat → Json
  | arr : List Json → Json
  | obj : List (String × Json) → Json

/-- `data[key]` on a parsed JSON object, `none` standing for the `KeyError`
raised on a missing key (or indexing a non-object). -/
def json_field (data : Json) (key : String) : Option Json :=
  match data with
  | Json.obj fields => fields.lookup key
  | _ => none

/-- A JSON value read at a string-typed field. -/
def Json.getStr : Json → Option String
  | Json.str s => some s
  | _ => none

/-- A JSON value read at the rgb field: a three-element array of numbers. -/
def Json.getRgb : Json → Option (Nat × Nat × Nat)
  | Json.arr [Json.num r, Json.num g, Json.num b] => some (r, g, b)
  | _ => none

/-- `ColourId.toJSON`: the flat object `{id, name, base, hex, rgb}` with
`rgb` serialized as a three-element array. -/
def ColourId.toJSON (c : ColourId) : Json :=
  Json.obj [("id", Json.str c.id), ("name", Json.str c.name),
    ("base", Json.str c.base), ("hex", Json.str c.hex),
    ("rgb", Json.arr [Json.num c.rgb.1, Json.num c.rgb.2.1, Json.num c.rgb.2.2])]

/-- `create_colour_from_json`: build a `ColourId` from the object's `id`,
`name`, `base`, `hex` and `rgb` fields. -/
def create_colour_from_json (data : Json) : Option ColourId :=
  match (json_field data "id").bind Json.getStr,
      (json_field data "name").bind Json.getStr,
      (json_field data "base").bind Json.getStr,
      (json_field data "hex").bind Json.getStr,
      (json_field data "rgb").bind Json.getRgb with
  | some i, some nm, some bs, some hx, some rgb => some ⟨i, nm, bs, hx, rgb⟩
  | _, _, _, _, _ => none

/-- `create_colour_from_json` applied over a parsed array, in order;
`none` stands for an uncaught fault at the first failing element. -/
def map_create : List Json → Option (List ColourId)
  | [] => some []
  | j :: js =>
    match create_colour_from_json j, map_create js with
    | some c, some cs => some (c :: cs)
    | _, _ => none

theorem create_colour_from_json_toJSON (c : ColourId) :
    create_colour_from_json (ColourId.toJSON c) = some c := rfl

theorem map_create_map_toJSON : ∀ cs : List ColourId,
    map_create (cs.map ColourId.toJSON) = some cs := by
  intro cs
  induction cs with
  | nil => rfl
  | cons c cs ih =>
    simp only [List.map_cons, map_create, create_colour_from_json_toJSON, ih]

/-- One entry of the listing response's `Contents`: its `Key`. -/
structure S3Object where
  key : String
deriving DecidableEq

/-- A `list_objects_v2` response: its `Contents` list (a missing
`Contents` entry stands for the empty list, as in `response.get`). -/
structure S3ListResponse where
  contents : List S3Object
deriving DecidableEq

/-- `key.endswith("/")`. -/
def key_ends_in_slash (k : String) : Bool :=
  match k.data.getLast? with
  | some c => c = '/'
  | none => false

/-- `list_s3_bucket_file_keys`: every object key of the response, in
order, skipping keys that end in `/`. -/
def list_s3_bucket_file_keys (resp : S3ListResponse) : List String :=
  resp.contents.filterMap fun o =>
    if key_ends_in_slash o.key = true then none else some o.key

/-- One paragraph the scraper visits: the text of its `strong` element
when it has one, and the paragraph text the extractors run over. -/
structure Paragraph where
  strong : Option String
  text : List Char

/-- `download_colour_data` over the parsed page's matching paragraphs:
paragraphs with no name element are skipped, the two extractors run on the
paragraph text, and a record is yielded only when both succeed. -/
def download_colour_data (base_colour : String) (paragraphs : List Paragraph) : List Colour :=
  paragraphs.filterMap fun p =>
    match p.strong with
    | none => none
    | some nm =>
      match extract_hex_colour p.text, extract_rgb_colour p.text with
      | some hx, some rgb => some ⟨nm, base_colour, ⟨hx⟩, rgb⟩
      | _, _ => none

/-- `add_id_to_colour` with the generated identifier made explicit. -/
def add_id_to_colour (id : String) (colour : Colour) : ColourId :=
  ⟨id, colour.name, colour.base, colour.hex, colour.rgb⟩

/-- `seq(colours).map(add_id_to_colour)`, the fresh identifier stream
given as a function of the record's position. -/
def attach_ids (idGen : Nat → String) : Nat → List Colour → List ColourId
  | _, [] => []
  | n, c :: cs => add_id_to_colour (idGen n) c :: attach_ids idGen (n + 1) cs

/-- The list the scraper's main loop persists for one colour family:
scraped records, identifiers attached, `toJSON` applied. -/
def colours_with_ids_json (idGen : Nat → String) (base : String)
    (ps : List Paragraph) : List Json :=
  (attach_ids idGen 0 (download_colour_data base ps)).map ColourId.toJSON

/-- A syntactically valid persisted hex string: `#` and six hex digits. -/
def valid_hex_string (s : String) : Prop :=
  ∃ ds : List Char, s.data = '#' :: ds ∧ ds.length = 6 ∧
    ∀ c ∈ ds, isHexDigitChar c = true

/-- `save_to_json_gz_file` on a list of records, the external json text
codec (`json.dumps`), UTF-8 encoder and gzip compressor left abstract:
the bytes written for the serialized array of `toJSON` objects. -/
def save_to_json_gz_bytes {S B : Type} (dumps : Json → S) (encode : S → B)
    (compress : B → B) (records : List ColourId) : B :=
  compress (encode (dumps (Json.arr (records.map ColourId.toJSON))))

/-- The reader pipeline on one object's bytes: `gzip.decompress`,
`json.loads` (abstract, returning the parsed value or `none` for a raised
parse fault), then `create_colour_from_json` over the array's elements. -/
def read_json_gz_records {B : Type} (loads : B → Option Json) (decompress : B → B)
    (file : B) : Option (List ColourId) :=
  match loads (decompress file) with
  | some (Json.arr items) => map_create items
  | _ => none

/-- The functional `seq` pipeline of the reader notebook: map download,
decompress and parse over the listed keys, flatten the parsed arrays,
build `ColourId` records, filter reddish then muted, and force the list.
Download, decompress and parse are the external services, left abstract;
`none` stands for an uncaught fault while building a record. -/
def result_seq_pipeline {B C : Type} (keys : List String) (download : String → B)
    (decompress : B → C) (loads : C → List Json) : Option (List ColourId) :=
  (map_create ((((keys.map download).map decompress).map loads).flatten)).map
    fun cs => (cs.filter is_colour_reddish).filter is_colour_muted

/-- The inner `for colour_dict in json_data` loop of the imperative
version: build each record, `continue` past non-reddish and non-muted
ones, append the rest to `result`; `none` stands for an uncaught fault
while building a record. -/
def process_colour_dicts : List Json → List ColourId → Option (List ColourId)
  | [], acc => some acc
  | j :: js, acc =>
    match create_colour_from_json j with
    | none => none
    | some colour =>
      if is_colour_reddish colour = false then process_colour_dicts js acc
      else if is_colour_muted colour = false then process_colour_dicts js acc
      else process_colour_dicts js (acc ++ [colour])

/-- The imperative loop body over the remaining keys, carrying the
`result` accumulator: download, decompress and parse one file, then visit
its records in order, skipping non-reddish and non-muted ones. -/
def result_imperative_from {B C : Type} (download : String → B)
    (decompress : B → C) (loads : C → List Json) :
    List String → List ColourId → Option (List ColourId)
  | [], acc => some acc
  | k :: ks, acc =>
    match process_colour_dicts (loads (decompress (download k))) acc with
    | none => none
    | some acc2 => result_imperative_from download decompress loads ks acc2

/-- The imperative version of the reader, as the notebook's `for` loops
write it, starting from the empty `result` list. -/
def result_imperative {B C : Type} (keys : List String) (download : String → B)
    (decompress : B → C) (loads : C → List Json) : Option (List ColourId) :=
  result_imperative_from download decompress loads keys []

theorem process_colour_dicts_eq : ∀ (js : List Json) (acc : List ColourId),
    process_colour_dicts js acc =
      (map_create js).map
        fun cs => acc ++ (cs.filter is_colour_reddish).filter is_colour_muted := by
  intro js
  induction js with
  | nil => intro acc; simp [process_colour_dicts, map_create]
  | cons j js ih =>
    intro acc
    simp only [process_colour_dicts, map_create]
    cases hc : create_colour_from_json j with
    | none => simp
    | some c =>
      dsimp only
      cases hm : map_create js with
      | none =>
        have hnone : ∀ acc2, process_colour_dicts js acc2 = none := by
          intro acc2
          rw [ih acc2, hm]
          rfl
        split_ifs <;> simp [hnone]
      | some cs =>
        by_cases hr : is_colour_reddish c = true
        · by_cases hmu : is_colour_muted c = true
          · rw [if_neg (by simp [hr]), if_neg (by simp [hmu]), ih, hm]
            simp [List.filter_cons, hr, hmu]
          · rw [if_neg (by simp [hr]),
              if_pos (Bool.not_eq_true (is_colour_muted c) ▸ hmu), ih, hm]
            simp [List.filter_cons, hr, hmu]
        · rw [if_pos (Bool.not_eq_true (is_colour_reddish c) ▸ hr), ih, hm]
          simp [List.filter_cons, hr]

theorem map_create_append : ∀ xs ys : List Json,
    map_create (xs ++ ys) =
      (map_create xs).bind fun as => (map_create ys).map fun bs => as ++ bs := by
  intro xs ys
  induction xs with
  | nil => cases hys : map_create ys <;> simp [map_create, hys]
  | cons x xs ih =>
    simp only [List.cons_append, map_create, List.append_eq]
    rw [ih]
    cases create_colour_from_json x <;> cases map_create xs <;>
      cases map_create ys <;> simp

theorem result_imperative_from_eq {B C : Type} (download : String → B)
    (decompress : B → C) (loads : C → List Json) :
    ∀ (ks : List String) (acc : List ColourId),
      result_imperative_from download decompress loads ks acc =
        (map_create (((ks.map download).map decompress).map loads).flatten).map
          fun cs => acc ++ (cs.filter is_colour_reddish).filter is_colour_muted := by
  intro ks
  induction ks with
  | nil => intro acc; simp [result_imperative_from, map_create]
  | cons k ks ih =>
    intro acc
    simp only [result_imperative_from, List.map_cons, List.flatten_cons,
      process_colour_dicts_eq, map_create_append]
    cases hmc : map_create (loads (decompress (download k))) with
    | none => simp
    | some cs =>
      simp only [Option.map_some', Option.some_bind]
      rw [ih]
      cases hrest : map_create (((ks.map download).map decompress).map loads).flatten with
      | none => simp
      | some ds => simp [List.filter_append, List.append_assoc]

/-- C9: For every sequence of listed keys and every assignment of object
contents to keys (together with any behaviour of the external decompress
and parse services), the functional `seq` pipeline and the imperative
`for`-loop version produce the same list of `ColourId` records, in the
same order. -/
theorem seq_pipeline_eq_imperative_loop {B C : Type} (keys : List String)
    (download : String → B) (decompress : B → C) (loads : C → List Json) :
    result_seq_pipeline keys download decompress loads =
      result_imperative keys download decompress loads := by
  rw [result_imperative, result_imperative_from_eq, result_seq_pipeline]
  cases map_create (((keys.map download).map decompress).map loads).flatten <;> simp

theorem extract_hex_colour_shape (t m : List Char) (h : extract_hex_colour t = some m) :
    ∃ ds : List Char, m = '#' :: ds ∧ ds.length = 6 ∧ ∀ c ∈ ds, isHexDigitChar c = true := by
  obtain ⟨i, hi, -⟩ := (reSearch_eq_some_iff extract_hex_colour_step t m).mp h
  obtain ⟨ds, rest, -, hlen, hall, hm⟩ := (extract_hex_colour_step_eq_some_iff _ m).mp hi
  exact ⟨ds, hm, hlen, hall⟩

theorem extract_rgb_colour_bounds (t : List Char) (v : Nat × Nat × Nat)
    (h : extract_rgb_colour t = some v) : v.1 ≤ 999 ∧ v.2.1 ≤ 999 ∧ v.2.2 ≤ 999 := by
  obtain ⟨i, hi, -⟩ := (reSearch_eq_some_iff extract_rgb_colour_step t v).mp h
  exact (extract_rgb_colour_step_some _ v hi).2

theorem mem_attach_ids (idGen : Nat → String) :
    ∀ (cs : List Colour) (n : Nat) (ci : ColourId), ci ∈ attach_ids idGen n cs →
      ∃ c ∈ cs, ci.base = c.base ∧ ci.hex = c.hex ∧ ci.rgb = c.rgb := by
  intro cs
  induction cs with
  | nil => intro n ci h; simp [attach_ids] at h
  | cons c cs ih =>
    intro n ci h
    simp only [attach_ids, List.mem_cons] at h
    rcases h with h | h
    · exact ⟨c, by simp, by rw [h]; rfl, by rw [h]; rfl, by rw [h]; rfl⟩
    · obtain ⟨c2, hc2, hh⟩ := ih (n + 1) ci h
      exact ⟨c2, by simp [hc2], hh⟩

theorem mem_download_colour_data (base : String) (ps : List Paragraph) (c : Colour)
    (h : c ∈ download_colour_data base ps) :
    ∃ (p : Paragraph) (hx : List Char) (rgb : Nat × Nat × Nat),
      extract_hex_colour p.text = some hx ∧ extract_rgb_colour p.text = some rgb ∧
        c.base = base ∧ c.hex = ⟨hx⟩ ∧ c.rgb = rgb := by
  obtain ⟨p, hp, hcreate⟩ := List.mem_filterMap.mp h
  cases hs : p.strong with
  | none => rw [hs] at hcreate; simp at hcreate
  | some nm =>
    rw [hs] at hcreate
    dsimp only at hcreate
    cases hhex : extract_hex_colour p.text with
    | none => rw [hhex] at hcreate; simp at hcreate
    | some hx =>
      rw [hhex] at hcreate
      cases hrgb : extract_rgb_colour p.text with
      | none => rw [hrgb] at hcreate; simp at hcreate
      | some rgb =>
        rw [hrgb] at hcreate
        dsimp only at hcreate
        have hc : Colour.mk nm base ⟨hx⟩ rgb = c := by simpa using hcreate
        exact ⟨p, hx, rgb, hhex, hrgb, by rw [← hc], by rw [← hc], by rw [← hc]⟩

/-- The Asphalt record of the notebook's own output, rgb (12, 4, 4). -/
def asphalt_colour : ColourId :=
  ⟨"b6907772-f286-4df1-b699-1d9dee8fdbb2", "Asphalt", "black", "#0C0404", (12, 4, 4)⟩

/-- Carmine, rgb (150, 0, 24), the scraper test's first expected record. -/
def carmine_colour : ColourId :=
  ⟨"c1", "Carmine", "red", "#960018", (150, 0, 24)⟩

/-- C1 (counterexample): the claim says `is_colour_reddish` returns false
for rgb (12, 4, 4); on the code it does not — 12 is strictly greater than
both 4 and 4, so the predicate returns true (the notebook's own output
shows this record passing the reddish filter). -/
theorem reddish_asphalt_cex : ¬ (is_colour_reddish asphalt_colour = false) := by decide

/-- C1 (amended): the reddish predicate holds exactly when the red channel
is strictly greater than both the green and blue channels; for rgb
(150, 0, 24) it returns true, and for rgb (12, 4, 4) it also returns true. -/
theorem reddish_iff_red_strictly_greatest :
    (∀ colour : ColourId, is_colour_reddish colour = true ↔
      (colour.rgb.2.1 < colour.rgb.1 ∧ colour.rgb.2.2 < colour.rgb.1)) ∧
    is_colour_reddish carmine_colour = true ∧
    is_colour_reddish asphalt_colour = true := by
  refine ⟨?_, by decide, by decide⟩
  intro colour
  simp [is_colour_reddish, Bool.and_eq_true, decide_eq_true_iff]

/-- C8: the muted predicate holds exactly when all three RGB channels are
strictly below 128; any channel at or above 128 makes it false. -/
theorem muted_iff_all_channels_below_128 :
    ∀ colour : ColourId, is_colour_muted colour = true ↔
      (colour.rgb.1 < 128 ∧ colour.rgb.2.1 < 128 ∧ colour.rgb.2.2 < 128) := by
  intro colour
  simp [is_colour_muted, Bool.and_eq_true, decide_eq_true_iff, and_assoc]

/-- C3: on the notebook's own test text the RGB extractor returns
(1, 2, 342); no upper bound is applied, so the channel value 342, above
255, is accepted as-is. -/
theorem rgb_no_upper_bound_sample :
    extract_rgb_colour
        ("This text contains a color code: rgb 1, 2, 342 and more text after".toList) =
      some (1, 2, 342) ∧ 255 < 342 :=
  ⟨by decide, by decide⟩

/-- C5: the hex extractor returns the match at the first position carrying
`#` and six hex digits — and `none` when no position does; in particular
the notebook's test text yields `#FFA500`, and text with no `#` yields
`none`. -/
theorem hex_extraction_first_match :
    (∀ t : List Char,
      (extract_hex_colour t = none ↔ ∀ i : Nat, ¬ hex_match_at t i) ∧
      (∀ m : List Char, extract_hex_colour t = some m ↔
        ∃ i : Nat, (∃ ds rest : List Char,
            t.drop i = '#' :: (ds ++ rest) ∧ ds.length = 6 ∧
              (∀ c ∈ ds, isHexDigitChar c = true) ∧ m = '#' :: ds) ∧
          ∀ j : Nat, j < i → ¬ hex_match_at t j)) ∧
    extract_hex_colour
        ("This text contains a color code: #FFA500 and more text after".toList) =
      some ("#FFA500".toList) ∧
    extract_hex_colour ("No hex colour".toList) = none := by
  refine ⟨?_, by decide, by decide⟩
  intro t
  constructor
  · rw [extract_hex_colour, reSearch_eq_none_iff]
    exact forall_congr' fun i => extract_hex_colour_step_eq_none_iff _
  · intro m
    rw [extract_hex_colour, reSearch_eq_some_iff]
    refine exists_congr fun i => ?_
    exact and_congr (extract_hex_colour_step_eq_some_iff _ m)
      (forall_congr' fun j =>
        imp_congr Iff.rfl (extract_hex_colour_step_eq_none_iff _))

/-- C6 (counterexample): the claim requires a single space after `rgb`,
but the code's pattern has `\s*`: on `"rgb1,2,3"`, which contains no
occurrence of the claimed single-space pattern at any position, the
extractor still succeeds with (1, 2, 3). -/
theorem rgb_single_space_claim_cex :
    extract_rgb_colour ("rgb1,2,3".toList) = some (1, 2, 3) ∧
    extract_rgb_colour_as_claimed ("rgb1,2,3".toList) = none ∧
    ∀ i : Nat, ¬ rgb_claimed_match_at ("rgb1,2,3".toList) i := by
  refine ⟨by decide, by decide, ?_⟩
  intro i h
  have h2 : rgb_claimed_match_here (("rgb1,2,3".toList).drop i) := h
  have hnone : extract_rgb_colour_as_claimed ("rgb1,2,3".toList) = none := by decide
  have hstep := (reSearch_eq_none_iff extract_rgb_claimed_step ("rgb1,2,3".toList)).mp hnone i
  have hsome := rgb_claimed_match_here_isSome _ h2
  rw [hstep] at hsome
  simp at hsome

/-- C6 (amended): `extract_rgb_colour` succeeds exactly on texts with an
occurrence of `rgb` (any case) followed by optional whitespace and three
comma-separated groups of 1–3 digits (optional whitespace after each
comma); with no such occurrence it returns `none`, and a returned value
is always produced by the matcher at the first matching position. -/
theorem rgb_extraction_matches_pattern :
    (∀ t : List Char,
      ((extract_rgb_colour t).isSome = true ↔ ∃ i : Nat, rgb_match_at t i) ∧
      (extract_rgb_colour t = none ↔ ∀ i : Nat, ¬ rgb_match_at t i) ∧
      (∀ v : Nat × Nat × Nat, extract_rgb_colour t = some v →
        ∃ i : Nat, extract_rgb_colour_step (t.drop i) = some v ∧
          ∀ j : Nat, j < i → ¬ rgb_match_at t j)) ∧
    extract_rgb_colour ("there is no colour code in this text".toList) = none := by
  refine ⟨?_, by decide⟩
  intro t
  have hnone : extract_rgb_colour t = none ↔ ∀ i : Nat, ¬ rgb_match_at t i := by
    rw [extract_rgb_colour, reSearch_eq_none_iff]
    exact forall_congr' fun i => extract_rgb_colour_step_eq_none_iff _
  refine ⟨?_, hnone, ?_⟩
  · rw [← Option.ne_none_iff_isSome, ne_eq, hnone]
    exact not_forall_not
  · intro v hv
    obtain ⟨i, hi, hlt⟩ := (reSearch_eq_some_iff extract_rgb_colour_step t v).mp hv
    exact ⟨i, hi, fun j hj => (extract_rgb_colour_step_eq_none_iff _).mp (hlt j hj)⟩

/-- C7: every key yielded by the listing is an object key of the response,
carries the requested key start whenever all the response's keys do, and
never ends in `/`. -/
theorem listed_keys_sound (resp : S3ListResponse) (pfx : String)
    (hpfx : ∀ o ∈ resp.contents, pfx.data.isPrefixOf o.key.data = true) :
    ∀ k ∈ list_s3_bucket_file_keys resp,
      (∃ o ∈ resp.contents, o.key = k) ∧ pfx.data.isPrefixOf k.data = true ∧
        key_ends_in_slash k = false := by
  intro k hk
  obtain ⟨o, ho, hko⟩ := List.mem_filterMap.mp hk
  by_cases hd : key_ends_in_slash o.key = true
  · rw [if_pos hd] at hko
    exact absurd hko (by simp)
  · rw [if_neg hd] at hko
    have hkey : o.key = k := by simpa using hko
    subst hkey
    exact ⟨⟨o, ho, rfl⟩, hpfx o ho, by simpa using hd⟩

/-- A listing response carrying the blog bucket's keys, one of them a
directory-style key ending in `/`. -/
def example_listing : S3ListResponse :=
  ⟨[⟨"2023-02-18/small-files/black.json.gz"⟩, ⟨"2023-02-18/small-files/blue.json.gz"⟩,
    ⟨"2023-02-18/small-files/archive/"⟩]⟩

/-- C7 (witness): the soundness of the listing evaluated on a concrete
response whose keys all carry the requested key start. -/
theorem listed_keys_sound_witness :
    (∀ o ∈ example_listing.contents,
      ("2023-02-18/small-files/" : String).data.isPrefixOf o.key.data = true) ∧
    (∀ k ∈ list_s3_bucket_file_keys example_listing,
      (∃ o ∈ example_listing.contents, o.key = k) ∧
        ("2023-02-18/small-files/" : String).data.isPrefixOf k.data = true ∧
        key_ends_in_slash k = false) :=
  ⟨by decide, listed_keys_sound example_listing "2023-02-18/small-files/" (by decide)⟩

/-- A paragraph text holding a hex code and an RGB code with a channel
value above 255, which both extractors accept. -/
def c2_paragraph_text : List Char :=
  "has #960018 and rgb 1, 2, 342 here".toList

/-- The record the scraper persists for `c2_paragraph_text`. -/
def sample_c2_json : Json :=
  Json.obj [("id", Json.str "id-0"), ("name", Json.str "Big"),
    ("base", Json.str "red"), ("hex", Json.str "#960018"),
    ("rgb", Json.arr [Json.num 1, Json.num 2, Json.num 342])]

/-- C2 (counterexample): a record with the RGB channel value 342 — above
255 — passes both extractions and reaches the persisted list, so the
claimed 0–255 invariant fails on the code. -/
theorem persisted_record_exceeds_255 :
    sample_c2_json ∈
      colours_with_ids_json (fun _ => "id-0") "red" [⟨some "Big", c2_paragraph_text⟩] ∧
    json_field sample_c2_json "rgb" =
      some (Json.arr [Json.num 1, Json.num 2, Json.num 342]) ∧
    ¬ (342 ≤ 255) :=
  ⟨List.mem_singleton.mpr rfl, rfl, by decide⟩

/-- C2 (amended): every record that reaches persistence has a
syntactically valid hex string (`#` plus six hex digits) and three integer
RGB channels each in the range 0 to 999 — the three-digit groups bound the
channels by 999, not 255 — because any record for which hex or RGB
extraction fails is discarded before persistence. -/
theorem persisted_records_valid_hex_and_bounded :
    ∀ (idGen : Nat → String) (base : String) (ps : List Paragraph),
      ∀ j ∈ colours_with_ids_json idGen base ps,
        ∃ (i nm hx : String) (r g b : Nat),
          j = Json.obj [("id", Json.str i), ("name", Json.str nm),
            ("base", Json.str base), ("hex", Json.str hx),
            ("rgb", Json.arr [Json.num r, Json.num g, Json.num b])] ∧
          valid_hex_string hx ∧ r ≤ 999 ∧ g ≤ 999 ∧ b ≤ 999 := by
  intro idGen base ps j hj
  unfold colours_with_ids_json at hj
  obtain ⟨ci, hci, hjeq⟩ := List.mem_map.mp hj
  obtain ⟨c, hc, hcibase, hcihex, hcirgb⟩ := mem_attach_ids idGen _ 0 ci hci
  obtain ⟨p, hx, rgb, hhexs, hrgbs, hcbase, hchex, hcrgb⟩ :=
    mem_download_colour_data base ps c hc
  obtain ⟨ds, hmds, hdslen, hdsall⟩ := extract_hex_colour_shape p.text hx hhexs
  obtain ⟨hb1, hb2, hb3⟩ := extract_rgb_colour_bounds p.text rgb hrgbs
  refine ⟨ci.id, ci.name, ci.hex, ci.rgb.1, ci.rgb.2.1, ci.rgb.2.2, ?_, ?_, ?_, ?_, ?_⟩
  · rw [← hjeq]
    unfold ColourId.toJSON
    rw [hcibase, hcbase]
  · refine ⟨ds, ?_, hdslen, hdsall⟩
    rw [hcihex, hchex]
    exact hmds
  · rw [hcirgb, hcrgb]
    exact hb1
  · rw [hcirgb, hcrgb]
    exact hb2
  · rw [hcirgb, hcrgb]
    exact hb3

/-- C2 (witness): the amended validity statement evaluated on the concrete
scraped record of `c2_paragraph_text`. -/
theorem persisted_records_valid_witness :
    sample_c2_json ∈
      colours_with_ids_json (fun _ => "id-0") "red" [⟨some "Big", c2_paragraph_text⟩] ∧
    ∃ (i nm hx : String) (r g b : Nat),
      sample_c2_json = Json.obj [("id", Json.str i), ("name", Json.str nm),
        ("base", Json.str "red"), ("hex", Json.str hx),
        ("rgb", Json.arr [Json.num r, Json.num g, Json.num b])] ∧
      valid_hex_string hx ∧ r ≤ 999 ∧ g ≤ 999 ∧ b ≤ 999 :=
  ⟨List.mem_singleton.mpr rfl,
    persisted_records_valid_hex_and_bounded (fun _ => "id-0") "red"
      [⟨some "Big", c2_paragraph_text⟩] sample_c2_json (List.mem_singleton.mpr rfl)⟩

/-- C4: serializing records with `toJSON` and the external json text
codec, UTF-8 encoder and gzip compressor, then reading back through
`gzip.decompress`, `json.loads` and `create_colour_from_json`, yields the
original records field for field, for any implementations of the external
services meeting their inverse contracts. -/
theorem roundtrip_preserves_records {S B : Type} (dumps : Json → S) (encode : S → B)
    (compress decompress : B → B) (loads : B → Option Json)
    (hjson : ∀ j : Json, loads (encode (dumps j)) = some j)
    (hgzip : ∀ b : B, decompress (compress b) = b) (records : List ColourId) :
    read_json_gz_records loads decompress
        (save_to_json_gz_bytes dumps encode compress records) = some records := by
  unfold read_json_gz_records save_to_json_gz_bytes
  rw [hgzip, hjson]
  exact map_create_map_toJSON records

/-- Two records with the notebook's field values, used to evaluate the
round trip. -/
def roundtrip_sample : List ColourId :=
  [⟨"b6907772-f286-4df1-b699-1d9dee8fdbb2", "Asphalt", "black", "#0C0404", (12, 4, 4)⟩,
    ⟨"0a", "Carmine", "red", "#960018", (150, 0, 24)⟩]

/-- C4 (witness): the round trip evaluated with identity codecs — which
meet both inverse contracts — on two concrete records. -/
theorem roundtrip_preserves_records_witness :
    (∀ j : Json, some ((fun s : Json => s) ((fun j2 : Json => j2) j)) = some j) ∧
    (∀ b : Json, (fun b2 : Json => b2) ((fun b2 : Json => b2) b) = b) ∧
    read_json_gz_records some (fun b2 : Json => b2)
        (save_to_json_gz_bytes (fun j2 : Json => j2) (fun s : Json => s)
          (fun b2 : Json => b2) roundtrip_sample) =
      some roundtrip_sample :=
  ⟨fun _ => rfl, fun _ => rfl,
    roundtrip_preserves_records (fun j2 : Json => j2) (fun s : Json => s)
      (fun b2 : Json => b2) (fun b2 : Json => b2) some
      (fun _ => rfl) (fun _ => rfl) roundtrip_sample⟩

end ColourBlog
